import Mathlib

/-!
# go-vanityurls

A shallow embedding of `main.go`: the program decodes a YAML mapping from URL
paths to repositories, normalises and sorts the entries, renders an index page
and one vanity page per entry, and writes them below an output directory.

Go strings are embedded as Lean strings (sequences of Unicode scalar values,
which is what a YAML document decodes to); where Go works on the bytes of a
string the embedding goes through the UTF-8 encoding `utf8.bytes`.

The standard-library functions `main.go` calls are embedded in the namespaces
of their Go packages, for a Unix target. Two parts of the environment stay
parameters of `generate`: the YAML decoder and the operating system's answer to
each filesystem call.
-/

/-! ## Package `unicode/utf8` -/

namespace utf8

/-- UTF-8 encoding of one rune, as a list of byte values. -/
def EncodeRune (r : Char) : List Nat :=
  let c := r.toNat
  if c < 0x80 then [c]
  else if c < 0x800 then [0xC0 + c / 0x40, 0x80 + c % 0x40]
  else if c < 0x10000 then [0xE0 + c / 0x1000, 0x80 + c / 0x40 % 0x40, 0x80 + c % 0x40]
  else [0xF0 + c / 0x40000, 0x80 + c / 0x1000 % 0x40, 0x80 + c / 0x40 % 0x40, 0x80 + c % 0x40]

/-- The bytes of a sequence of runes. -/
def encode : List Char → List Nat
  | [] => []
  | r :: rs => EncodeRune r ++ encode rs

/-- The bytes of a Go string. -/
def bytes (s : String) : List Nat := encode s.data

end utf8

/-! ## Package `strings` -/

namespace strings

/-- Go `strings.HasSuffix`. -/
def HasSuffix (s suffix : String) : Bool := suffix.data.isSuffixOf s.data

/-- Go `strings.HasPrefix`. -/
def HasPrefix (s pre : String) : Bool := pre.data.isPrefixOf s.data

/-- Go `strings.TrimSuffix`: `s` without the trailing `suffix`, once, when it has it. -/
def TrimSuffix (s suffix : String) : String :=
  if HasSuffix s suffix then ⟨s.data.take (s.data.length - suffix.data.length)⟩ else s

/-- Go `strings.TrimPrefix`: `s` without the leading `pre`, once, when it has it. -/
def TrimPrefix (s pre : String) : String :=
  if HasPrefix s pre then ⟨s.data.drop pre.data.length⟩ else s

/-- Go `strings.Contains`, as a decidable proposition. -/
def Contains (s substr : String) : Prop := substr.data <:+: s.data

instance (s substr : String) : Decidable (Contains s substr) := by
  unfold Contains
  exact inferInstance

/-- Go `strings.Cut` on runes: what stands before and after the first `sep`, and whether `sep`
occurs; without `sep` the whole input and nothing. -/
def cut (sep : List Char) : List Char → List Char × List Char × Bool
  | [] => if sep = [] then ([], [], true) else ([], [], false)
  | c :: cs =>
    if sep.isPrefixOf (c :: cs) then ([], (c :: cs).drop sep.length, true)
    else
      let r := cut sep cs
      if r.2.2 then (c :: r.1, r.2.1, true) else (c :: cs, [], false)

/-- Go `strings.Cut`. -/
def Cut (s sep : String) : String × String × Bool :=
  let r := cut sep.data s.data
  (⟨r.1⟩, ⟨r.2.1⟩, r.2.2)

/-- The representative of the simple case-folding orbit of a rune, for the orbits of the ASCII
letters: the lower-case letter. Besides the two cases of a letter, the orbit of `k` holds
U+212A and the orbit of `s` holds U+017F. -/
def foldRune (r : Char) : Char :=
  if 65 ≤ r.toNat ∧ r.toNat ≤ 90 then Char.ofNat (r.toNat + 32)
  else if r.toNat = 0x212A then 'k'
  else if r.toNat = 0x17F then 's'
  else r

/-- Go `strings.EqualFold` with an ASCII second operand, which is how `isSafeURL` calls it:
equality under simple case folding. -/
def EqualFold (s t : String) : Bool := s.data.map foldRune == t.data.map foldRune

end strings

/-! ## Package `cmp` -/

namespace cmp

/-- Go `cmp.Compare` on strings: byte-wise lexicographic three-way comparison. -/
def Compare (x y : String) : Int :=
  if utf8.bytes x < utf8.bytes y then -1
  else if utf8.bytes y < utf8.bytes x then 1
  else 0

/-- Go `cmp.Or` on strings: the first argument that is not the empty string, or `""`. -/
def Or (vals : List String) : String :=
  match vals.find? (fun v => v ≠ "") with
  | some v => v
  | none => ""

end cmp

/-! ## Package `slices` -/

namespace slices

/-- One pass of the inner loop of Go `insertionSortCmpFunc`: `x` moves left past every
element it is strictly less than. The sorted prefix is held last element first. -/
def insertLeft {α : Type} (cmp : α → α → Int) (x : α) : List α → List α
  | [] => [x]
  | y :: ys => if cmp x y < 0 then y :: insertLeft cmp x ys else x :: y :: ys

/-- Go `insertionSortCmpFunc`, the sort `slices.SortFunc` runs on a slice of at most twelve
elements. -/
def insertionSortCmpFunc {α : Type} (data : List α) (cmp : α → α → Int) : List α :=
  (data.foldl (fun sorted x => insertLeft cmp x sorted) []).reverse

/-- Go `slices.SortFunc`. Every result of Go's sort is a permutation of the slice in ascending
order of `cmp`; this embedding fixes the order of elements that compare equal to the one
insertion sort gives. -/
def SortFunc {α : Type} (x : List α) (cmp : α → α → Int) : List α :=
  insertionSortCmpFunc x cmp

/-- What a comparison function has to satisfy to sort by the order `le`. -/
structure Orders {α : Type} (cmp : α → α → Int) (le : α → α → Prop) : Prop where
  lt_le : ∀ a b, cmp a b < 0 → le a b
  ge_le : ∀ a b, ¬ cmp a b < 0 → le b a
  trans : ∀ a b c, le a b → le b c → le a c

end slices

/-! ## Package `fmt` -/

namespace fmt

/-- Go `fmt.Sprintf` for formats whose only verb is `%v` and whose operands are strings. -/
def sprintf : List Char → List String → List Char
  | [], _ => []
  | '%' :: 'v' :: rest, a :: args => a.data ++ sprintf rest args
  | '%' :: 'v' :: rest, [] => "%!v(MISSING)".data ++ sprintf rest []
  | c :: rest, args => c :: sprintf rest args

/-- Go `fmt.Sprintf`, see `sprintf`. -/
def Sprintf (format : String) (args : List String) : String := ⟨sprintf format.data args⟩

end fmt

/-! ## Package `path/filepath` (Unix) -/

namespace filepath

/-- The elements of a path between separators. -/
def split : List Char → List (List Char)
  | [] => [[]]
  | c :: cs =>
    if c = '/' then [] :: split cs
    else match split cs with
      | [] => [[c]]
      | e :: es => (c :: e) :: es

/-- Clean's treatment of one element; `out` holds the elements kept so far, last first. -/
def cleanStep (rooted : Bool) (out : List (List Char)) (e : List Char) : List (List Char) :=
  if e = [] ∨ e = ['.'] then out
  else if e = ['.', '.'] then
    match out with
    | top :: below => if top = ['.', '.'] then e :: out else below
    | [] => if rooted then out else [e]
  else e :: out

/-- Go `filepath.Clean`: the shortest path equivalent to `path` by lexical processing. -/
def Clean (path : String) : String :=
  if path = "" then "."
  else
    let rooted := strings.HasPrefix path "/"
    let out := ((split path.data).foldl (cleanStep rooted) []).reverse
    let body : List Char := List.intercalate ['/'] out
    if rooted then ⟨'/' :: body⟩
    else if body = [] then "."
    else ⟨body⟩

/-- Go `filepath.Join`: the elements from the first non-empty one on, joined by separators and
cleaned; the empty string when every element is empty. -/
def Join : List String → String
  | [] => ""
  | e :: es => if e = "" then Join es else Clean (String.intercalate "/" (e :: es))

/-- The part of a path up to and including its last separator. -/
def dirPart : List Char → List Char
  | [] => []
  | c :: cs => if '/' ∈ cs then c :: dirPart cs else if c = '/' then [c] else []

/-- Go `filepath.Dir`: all but the last element of `path`, cleaned. -/
def Dir (path : String) : String := Clean ⟨dirPart path.data⟩

end filepath

/-! ## Package `html/template`: the escapers the two templates of `main.go` run through -/

namespace template

/-- Go `htmlReplacementTable`, indexed by rune; the empty string stands for "no replacement". -/
def htmlReplacementTable (r : Nat) : String :=
  if r = 0 then "\uFFFD"
  else if r = 34 then "&#34;"
  else if r = 38 then "&amp;"
  else if r = 39 then "&#39;"
  else if r = 43 then "&#43;"
  else if r = 60 then "&lt;"
  else if r = 62 then "&gt;"
  else ""

/-- Go `htmlReplacer` with `htmlReplacementTable` and `badRunes = true`, rune by rune. -/
def htmlReplacer : List Char → List Char
  | [] => []
  | r :: rs =>
    if r.toNat < 63 ∧ htmlReplacementTable r.toNat ≠ "" then
      (htmlReplacementTable r.toNat).data ++ htmlReplacer rs
    else r :: htmlReplacer rs

/-- Go `htmlEscaper` on a plain string: escaping for HTML text. -/
def htmlEscaper (s : String) : String := ⟨htmlReplacer s.data⟩

/-- Go `attrEscaper` on a plain string: escaping for a quoted attribute value. -/
def attrEscaper (s : String) : String := ⟨htmlReplacer s.data⟩

/-- A string none of whose runes `htmlReplacementTable` rewrites. -/
def plain (s : String) : Prop := ∀ r ∈ s.data, htmlReplacementTable r.toNat = ""

instance (s : String) : Decidable (plain s) := by
  unfold plain
  exact inferInstance

/-- Go `isHex`. -/
def isHex (c : Char) : Bool :=
  (48 ≤ c.toNat ∧ c.toNat ≤ 57) ∨ (97 ≤ c.toNat ∧ c.toNat ≤ 102) ∨ (65 ≤ c.toNat ∧ c.toNat ≤ 70)

/-- One lower-case hexadecimal digit. -/
def hexDigit (n : Nat) : Char := "0123456789abcdef".data.getD n '0'

/-- The escape `%xx` of one byte, Go's `%%%02x`. -/
def percent (b : Nat) : List Char := ['%', hexDigit (b / 16), hexDigit (b % 16)]

/-- The escapes of a sequence of bytes. -/
def percentAll : List Nat → List Char
  | [] => []
  | b :: bs => percent b ++ percentAll bs

/-- Whether Go `processURLOnto` with `norm = true` copies the ASCII byte `c` unchanged, given the
runes that follow it. -/
def urlKeeps (c : Char) (rest : List Char) : Bool :=
  if c ∈ ['!', '#', '$', '&', '*', '+', ',', '/', ':', ';', '=', '?', '@', '[', ']'] then true
  else if c ∈ ['-', '.', '_', '~'] then true
  else if c = '%' then
    match rest with
    | h1 :: h2 :: _ => isHex h1 && isHex h2
    | _ => false
  else (97 ≤ c.toNat ∧ c.toNat ≤ 122) ∨ (65 ≤ c.toNat ∧ c.toNat ≤ 90) ∨ (48 ≤ c.toNat ∧ c.toNat ≤ 57)

/-- Go `processURLOnto` with `norm = true`. -/
def processURL : List Char → List Char
  | [] => []
  | c :: rest =>
    if urlKeeps c rest then c :: processURL rest
    else percentAll (utf8.EncodeRune c) ++ processURL rest

/-- Go `urlNormalizer` on a plain string. -/
def urlNormalizer (s : String) : String := ⟨processURL s.data⟩

/-- Whether `processURL` copies every rune unchanged. -/
def urlKept : List Char → Bool
  | [] => true
  | c :: rest => urlKeeps c rest && urlKept rest

/-- Go `isSafeURL`: a URL without a protocol, or with one of `http`, `https`, `mailto`. The
protocol is what stands before the first `:`, when that holds no `/`. -/
def isSafeURL (s : String) : Bool :=
  let r := strings.Cut s ":"
  if r.2.2 ∧ ¬ strings.Contains r.1 "/" then
    strings.EqualFold r.1 "http" || strings.EqualFold r.1 "https" ||
      strings.EqualFold r.1 "mailto"
  else true

/-- Go `filterFailsafe`. -/
def filterFailsafe : String := "ZgotmplZ"

/-- Go `urlFilter` on a plain string: an unsafe URL is replaced by `#ZgotmplZ`. -/
def urlFilter (s : String) : String :=
  if isSafeURL s then s else "#" ++ filterFailsafe

end template

/-! ## Package `os`: the filesystem calls of `main.go` -/

namespace os

/-- A filesystem call with its arguments. -/
inductive Call where
  | MkdirAll (path : String) (perm : Nat)
  | WriteFile (name : String) (data : String) (perm : Nat)
deriving DecidableEq, Repr

/-- The operating system as `generate` sees it: given the calls made so far, oldest first, the
error the next call returns, `none` for success. -/
abbrev System := List Call → Call → Option String

/-- A system on which every call succeeds. -/
def allowAll : System := fun _ _ => none

/-- The files a sequence of successful calls writes, oldest first. -/
def written : List Call → List (String × String)
  | [] => []
  | Call.WriteFile name data _ :: cs => (name, data) :: written cs
  | Call.MkdirAll _ _ :: cs => written cs

/-- The content of file `name` after a sequence of successful calls into an output root that was
empty before: the data of the last write to `name`. -/
def fileAt (calls : List Call) (name : String) : Option String :=
  ((written calls).reverse.find? (fun w => w.1 = name)).map Prod.snd

end os

/-! ## `main.go` -/

namespace vanity

/-- Go `pathConfig`. -/
structure pathConfig where
  path : String
  repo : String
  display : String
  vcs : String
  subdir : String
deriving DecidableEq, Repr

/-- The value type of `config.Paths` (an unnamed struct in the source). -/
structure configPath where
  Repo : String
  Display : String
  VCS : String
  Subdir : String
deriving DecidableEq, Repr

/-- Go `config`. `Paths` is a Go map: the list holds its key/value pairs in the order the
`range` statement of `generate` visits them, which Go leaves unspecified. -/
structure config where
  Host : String
  Paths : List (String × configPath)
deriving DecidableEq, Repr

/-- What a run returns and does: the returned error (`none` for `nil`) and the filesystem calls
made, oldest first. When a call fails it is the last one of `calls`. -/
structure Outcome where
  err : Option String
  calls : List os.Call
deriving DecidableEq, Repr

/-- The head of `indexTmpl`, up to the action `{{.Host}}`. -/
def indexHead : String :=
  "<!DOCTYPE html>\n" ++
  "<html>\n" ++
  "<head>\n" ++
  "\t<title>go.openfeature.dev</title>\n" ++
  "<meta name=\"viewport\" content=\"width=device-width, initial-scale=1.0\">\n" ++
  "\t<meta name=\"description\" content=\"Go vanity import paths for OpenFeature Go SDK and community modules, including providers and hooks.\">\n" ++
  "  <style>\n" ++
  "\t\t:root\x7b--bg:#ffffff;--fg:#121416;--accent:#5d5dff\x7d\n" ++
  "\t\t@media (prefers-color-scheme:dark)\x7b:root\x7b--bg:#1b1b1c;--fg:#e3e3e3;--accent:#8b8bff\x7d\x7d\n" ++
  "\t\thtml,body\x7bmargin:0;padding:0;background:var(--bg);color:var(--fg);line-height:1.1\x7dmain\x7bmargin:1rem auto;padding:0 1.5rem;max-width:600px\x7dh1\x7bfont-size:1.4rem;margin:0 0 2rem;font-weight:600;color:var(--fg);text-align:center\x7dul\x7blist-style:none;padding:0;margin:0\x7da\x7bcolor:var(--fg);display:block;padding:.1rem .1rem;border-radius:6px;text-decoration:none;font-family:ui-monospace,SFMono-Regular,Menlo,Consolas,monospace;font-size:.92rem;transition:background 0.15s ease\x7da:hover\x7bcolor:var(--accent)\x7d.logo-img\x7bdisplay:block;margin:1rem auto\x7d\n" ++
  "  </style>\n" ++
  "</head>\n" ++
  "<body>\n" ++
  "\t<picture>\n" ++
  "\t\t<source media=\"(prefers-color-scheme: dark)\" srcset=\"https://raw.githubusercontent.com/open-feature/community/0e23508c163a6a1ac8c0ced3e4bd78faafe627c7/assets/logo/horizontal/white/openfeature-horizontal-white.svg\">\n" ++
  "\t\t<img src=\"https://raw.githubusercontent.com/open-feature/community/0e23508c163a6a1ac8c0ced3e4bd78faafe627c7/assets/logo/horizontal/black/openfeature-horizontal-black.svg\"\n" ++
  "\t\t\talt=\"OpenFeature\"\n" ++
  "\t\t\twidth=\"497\"\n" ++
  "\t\t\theight=\"69\"\n" ++
  "\t\t\tclass=\"logo-img\">\n" ++
  "\t</picture>\n" ++
  "\t<h1>"

/-- The text of `indexTmpl` between `{{.Host}}` and `{{range .Handlers}}`. -/
def indexNeck : String :=
  "</h1>\n" ++
  "\t<main>\n" ++
  "\t<ul>\n" ++
  "\t"

/-- The body of the `range` of `indexTmpl` for one handler: the link to the documentation
viewer, its `href` in URL context and its text in HTML text context. -/
def indexItem (h : String) : String :=
  "<li><a href=\"https://pkg.go.dev/" ++ template.attrEscaper (template.urlNormalizer h) ++
  "\">" ++ template.htmlEscaper h ++ "</a></li>"

/-- The text of `indexTmpl` after `{{end}}`. -/
def indexTail : String :=
  "\n" ++
  "\t</ul>\n" ++
  "\t</main>\n" ++
  "</body>\n" ++
  "</html>\n"

/-- Execution of `indexTmpl` on `{Host, Handlers}`. Execution writes into a `bytes.Buffer` and
reads string fields only, so it returns no error. -/
def indexTmpl (Host : String) (Handlers : List String) : String :=
  indexHead ++ template.htmlEscaper Host ++ indexNeck ++
  String.join (Handlers.map indexItem) ++ indexTail

/-- The `go-import` tag of `vanityTmpl`. The attribute `content` is a quoted attribute and its
text holds no `url=`: its actions go through `attrEscaper`. -/
def goImportTag (Import VCS Repo Subdir : String) : String :=
  "<meta name=\"go-import\" content=\"" ++ template.attrEscaper Import ++ " " ++
  template.attrEscaper VCS ++ " " ++ template.attrEscaper Repo ++
  (if Subdir ≠ "" then " " ++ template.attrEscaper Subdir else "") ++ "\">"

/-- The `go-source` tag of `vanityTmpl`. -/
def goSourceTag (Import Display : String) : String :=
  "<meta name=\"go-source\" content=\"" ++ template.attrEscaper Import ++ " " ++
  template.attrEscaper Display ++ "\">"

/-- The `refresh` tag of `vanityTmpl`. In the attribute `content` of a `meta` element the
actions that follow the text `url=` are URLs: they go through `urlFilter`, then `attrEscaper`. -/
def refreshTag (Import Subpath : String) : String :=
  "<meta http-equiv=\"refresh\" content=\"0; url=https://pkg.go.dev/" ++
  template.attrEscaper (template.urlFilter Import) ++ "/" ++
  template.attrEscaper (template.urlFilter Subpath) ++ "\">"

/-- The text of `vanityTmpl` before the `go-import` tag. -/
def vanityHead : String :=
  "<!DOCTYPE html>\n" ++
  "<html>\n" ++
  "<head>\n" ++
  "<meta http-equiv=\"Content-Type\" content=\"text/html; charset=utf-8\"/>\n"

/-- The rest of `vanityTmpl` after the `refresh` tag: the fallback link, its `href` in URL
context. -/
def vanityBody (Import Subpath : String) : String :=
  "\n" ++
  "</head>\n" ++
  "<body>\n" ++
  "Nothing to see here; <a href=\"https://pkg.go.dev/" ++
  template.attrEscaper (template.urlNormalizer Import) ++ "/" ++
  template.attrEscaper (template.urlNormalizer Subpath) ++
  "\">see the package on pkg.go.dev</a>.\n" ++
  "</body>\n" ++
  "</html>"

/-- Execution of `vanityTmpl` on `{Import, Subpath, Repo, Display, VCS, Subdir}`; it returns
no error, as for `indexTmpl`. -/
def vanityTmpl (Import Subpath Repo Display VCS Subdir : String) : String :=
  vanityHead ++ goImportTag Import VCS Repo Subdir ++ "\n" ++ goSourceTag Import Display ++ "\n" ++
  refreshTag Import Subpath ++ vanityBody Import Subpath

/-- One filesystem call of a run: on an error the run returns it, otherwise it goes on. -/
def call (sys : os.System) (c : os.Call) (done : List os.Call)
    (next : List os.Call → Outcome) : Outcome :=
  match sys done c with
  | some err => ⟨some err, done ++ [c]⟩
  | none => next (done ++ [c])

/-- The vanity page `generateFiles` renders for one entry. -/
def vanityPage (host : String) (p : pathConfig) : String :=
  vanityTmpl (host ++ p.path) "" p.repo p.display p.vcs p.subdir

/-- The file `generateFiles` writes the page of one entry to. -/
def vanityFile (targetDir : String) (p : pathConfig) : String :=
  filepath.Join [targetDir, strings.TrimPrefix p.path "/" ++ ".html"]

/-- The second loop of `generateFiles`: per entry the directory of its file, when the path has
one, then the file. -/
def writePages (sys : os.System) (host targetDir : String) :
    List pathConfig → List os.Call → Outcome
  | [], done => ⟨none, done⟩
  | p :: rest, done =>
    let write := fun done1 =>
      call sys (os.Call.WriteFile (vanityFile targetDir p) (vanityPage host p) 0o600) done1
        (writePages sys host targetDir rest)
    let subpath := filepath.Dir p.path
    if subpath ≠ "." then
      call sys (os.Call.MkdirAll (filepath.Join [targetDir, strings.TrimPrefix subpath "/"]) 0o700)
        done write
    else write done

/-- The handlers `generateFiles` passes to `indexTmpl`. -/
def handlers (host : String) (paths : List pathConfig) : List String :=
  paths.map (fun h => host ++ h.path)

/-- Go `generateFiles`. -/
def generateFiles (sys : os.System) (host : String) (paths : List pathConfig)
    (targetDir : String) : Outcome :=
  call sys (os.Call.MkdirAll targetDir 0o700) [] fun done =>
    call sys
      (os.Call.WriteFile (filepath.Join [targetDir, "index.html"])
        (indexTmpl host (handlers host paths)) 0o600)
      done (writePages sys host targetDir paths)

/-- The body of the first loop of `generate`: the entry of one key of `cfg.Paths`. -/
def entry (path : String) (e : configPath) : pathConfig :=
  let p : pathConfig :=
    { path := strings.TrimSuffix path "/", repo := e.Repo, display := e.Display, vcs := e.VCS,
      subdir := e.Subdir }
  let p := { p with vcs := cmp.Or [p.vcs, "git"] }
  { p with display := cmp.Or [p.display,
      fmt.Sprintf "%v %v/tree/main\x7b/dir\x7d %v/blob/main\x7b/dir\x7d/\x7bfile\x7d#L\x7bline\x7d"
        [e.Repo, e.Repo, e.Repo]] }

/-- The slice `paths` of `generate` when it calls `generateFiles`: the entries of `cfg.Paths`
in the order of the `range`, then sorted by path. -/
def normalise (Paths : List (String × configPath)) : List pathConfig :=
  slices.SortFunc (Paths.map (fun kv => entry kv.1 kv.2))
    (fun a b => cmp.Compare a.path b.path)

/-- Go `generate`. `Unmarshal` is `yaml.Unmarshal` into a `config`. -/
def generate (Unmarshal : List Nat → Except String config) (sys : os.System)
    (input : List Nat) (outputDir : String) : Outcome :=
  match Unmarshal input with
  | Except.error err => ⟨some err, []⟩
  | Except.ok cfg => generateFiles sys cfg.Host (normalise cfg.Paths) outputDir

end vanity

set_option maxRecDepth 100000

/-! ## Facts about the library functions -/

namespace utf8

theorem toNat_lt (r : Char) : r.toNat < 0x110000 := by
  have h2 : r.val.toNat.isValidChar := r.valid
  unfold Nat.isValidChar at h2
  show r.val.toNat < 0x110000
  omega

theorem toNat_inj (r s : Char) (h : r.toNat = s.toNat) : r = s := by
  rw [← Char.ofNat_toNat r, ← Char.ofNat_toNat s, h]

/-- UTF-8 is a prefix code: the encoding of a rune determines the rune and what follows. -/
theorem EncodeRune_append_inj (r s : Char) (u v : List Nat)
    (h : EncodeRune r ++ u = EncodeRune s ++ v) : r = s ∧ u = v := by
  have hr := toNat_lt r
  have hs := toNat_lt s
  have key : r.toNat = s.toNat ∧ u = v := by
    unfold EncodeRune at h
    simp only [] at h
    split_ifs at h <;> simp at h <;>
      (first
        | (constructor <;> omega)
        | omega
        | (obtain ⟨h1, h2⟩ := h; exact ⟨by omega, by simp_all⟩))
  exact ⟨toNat_inj r s key.1, key.2⟩

theorem EncodeRune_ne_nil (r : Char) : EncodeRune r ≠ [] := by
  unfold EncodeRune
  simp only []
  split_ifs <;> simp

theorem encode_inj : ∀ (a b : List Char), encode a = encode b → a = b
  | [], [], _ => rfl
  | [], s :: b, h => by
    have hne := EncodeRune_ne_nil s
    simp [encode] at h
    exact absurd h.1 hne
  | r :: a, [], h => by
    have hne := EncodeRune_ne_nil r
    simp [encode] at h
    exact absurd h.1 hne
  | r :: a, s :: b, h => by
    simp only [encode] at h
    obtain ⟨h1, h2⟩ := EncodeRune_append_inj r s _ _ h
    rw [h1, encode_inj a b h2]

/-- Two strings with the same bytes are the same string. -/
theorem bytes_inj (x y : String) (h : bytes x = bytes y) : x = y :=
  String.ext (encode_inj x.data y.data h)

end utf8

namespace cmp

theorem Compare_neg_iff (x y : String) : Compare x y < 0 ↔ utf8.bytes x < utf8.bytes y := by
  unfold Compare
  split_ifs <;> simp_all

theorem Compare_nonpos_iff (x y : String) : Compare x y ≤ 0 ↔ utf8.bytes x ≤ utf8.bytes y := by
  unfold Compare
  split_ifs with h1 h2
  · simp [le_of_lt h1]
  · simp [h2]
  · simp [not_lt.mp h2]

theorem Or_pair (a b : String) (hb : b ≠ "") : Or [a, b] = if a = "" then b else a := by
  unfold Or
  by_cases ha : a = ""
  · simp [List.find?, ha, hb]
  · simp [List.find?, ha]

end cmp

namespace slices

variable {α : Type}

theorem insertLeft_perm (cmp : α → α → Int) (x : α) :
    ∀ l : List α, (insertLeft cmp x l).Perm (x :: l)
  | [] => List.Perm.refl _
  | y :: ys => by
    unfold insertLeft
    split_ifs
    · exact ((insertLeft_perm cmp x ys).cons y).trans (List.Perm.swap x y ys)
    · exact List.Perm.refl _

theorem foldl_insertLeft_perm (cmp : α → α → Int) :
    ∀ (data acc : List α),
      (data.foldl (fun sorted x => insertLeft cmp x sorted) acc).Perm (data ++ acc)
  | [], acc => List.Perm.refl _
  | x :: data, acc => by
    simp only [List.foldl_cons, List.cons_append]
    refine (foldl_insertLeft_perm cmp data _).trans ?_
    refine (List.Perm.append_left data (insertLeft_perm cmp x acc)).trans ?_
    exact List.perm_middle

/-- The sort returns a permutation of its input. -/
theorem SortFunc_perm (x : List α) (cmp : α → α → Int) : (SortFunc x cmp).Perm x := by
  unfold SortFunc insertionSortCmpFunc
  refine (List.reverse_perm _).trans ?_
  simpa using foldl_insertLeft_perm cmp x []

theorem insertLeft_sorted {cmp : α → α → Int} {le : α → α → Prop} (h : Orders cmp le) (x : α) :
    ∀ l : List α, l.Pairwise (fun a b => le b a) →
      (insertLeft cmp x l).Pairwise (fun a b => le b a)
  | [], _ => by simp [insertLeft]
  | y :: ys, hl => by
    unfold insertLeft
    rw [List.pairwise_cons] at hl
    split_ifs with hc
    · rw [List.pairwise_cons]
      refine ⟨?_, insertLeft_sorted h x ys hl.2⟩
      intro z hz
      rcases (List.mem_cons.mp ((insertLeft_perm cmp x ys).subset hz)) with hzx | hzy
      · rw [hzx]; exact h.lt_le x y hc
      · exact hl.1 z hzy
    · rw [List.pairwise_cons]
      refine ⟨?_, List.pairwise_cons.mpr hl⟩
      intro z hz
      rcases List.mem_cons.mp hz with hzy | hzy
      · rw [hzy]; exact h.ge_le x y hc
      · exact h.trans z y x (hl.1 z hzy) (h.ge_le x y hc)

theorem foldl_insertLeft_sorted {cmp : α → α → Int} {le : α → α → Prop} (h : Orders cmp le) :
    ∀ (data acc : List α), acc.Pairwise (fun a b => le b a) →
      (data.foldl (fun sorted x => insertLeft cmp x sorted) acc).Pairwise (fun a b => le b a)
  | [], _, hacc => hacc
  | x :: data, acc, hacc => by
    simp only [List.foldl_cons]
    exact foldl_insertLeft_sorted h data _ (insertLeft_sorted h x acc hacc)

/-- The sort returns its input in ascending order. -/
theorem SortFunc_sorted {cmp : α → α → Int} {le : α → α → Prop} (h : Orders cmp le)
    (x : List α) : (SortFunc x cmp).Pairwise le := by
  unfold SortFunc insertionSortCmpFunc
  rw [List.pairwise_reverse]
  exact foldl_insertLeft_sorted h x [] List.Pairwise.nil

end slices

namespace strings

theorem HasSuffix_iff (s suffix : String) : HasSuffix s suffix = true ↔ suffix.data <:+ s.data := by
  unfold HasSuffix
  exact List.isSuffixOf_iff_suffix

/-- A string that ends in `/` is its trimmed form followed by `/`. -/
theorem eq_TrimSuffix_append (s : String) (h : HasSuffix s "/" = true) :
    s = TrimSuffix s "/" ++ "/" := by
  obtain ⟨t, ht⟩ := (HasSuffix_iff s "/").mp h
  apply String.ext
  simp only [TrimSuffix, h, if_true, String.data_append]
  rw [← ht]
  simp

/-- A string that does not end in `/` is left as it is. -/
theorem TrimSuffix_of_not (s : String) (h : HasSuffix s "/" = false) : TrimSuffix s "/" = s := by
  simp [TrimSuffix, h]

theorem HasSuffix_append_self (p : String) : HasSuffix (p ++ "/") "/" = true := by
  rw [HasSuffix_iff]
  exact ⟨p.data, by simp [String.data_append]⟩

/-- Trimming removes the slash that was appended. -/
theorem TrimSuffix_append (p : String) : TrimSuffix (p ++ "/") "/" = p := by
  apply String.ext
  simp [TrimSuffix, HasSuffix_append_self, String.data_append]

/-- When the trimmed form still ends in `/`, the string ended in `//`. -/
theorem HasSuffix_TrimSuffix (s : String) (h : HasSuffix (TrimSuffix s "/") "/" = true) :
    HasSuffix s "//" = true := by
  cases hs : HasSuffix s "/" with
  | false => rw [TrimSuffix_of_not s hs] at h; rw [h] at hs; cases hs
  | true =>
    obtain ⟨t, ht⟩ := (HasSuffix_iff _ _).mp h
    rw [HasSuffix_iff]
    refine ⟨t, ?_⟩
    have h2 := congrArg String.data (eq_TrimSuffix_append s hs)
    rw [String.data_append, ← ht] at h2
    rw [h2]
    simp

/-- Two different keys with the same trimmed form: one does not end in `/` and the other is
that one followed by `/`. -/
theorem TrimSuffix_eq (a b : String) (h : TrimSuffix a "/" = TrimSuffix b "/") (hne : a ≠ b) :
    (HasSuffix b "/" = false ∧ a = b ++ "/") ∨ (HasSuffix a "/" = false ∧ b = a ++ "/") := by
  cases ha : HasSuffix a "/" with
  | false =>
    cases hb : HasSuffix b "/" with
    | false =>
      rw [TrimSuffix_of_not a ha, TrimSuffix_of_not b hb] at h
      exact absurd h hne
    | true =>
      right
      have h2 := eq_TrimSuffix_append b hb
      rw [← h, TrimSuffix_of_not a ha] at h2
      exact ⟨rfl, h2⟩
  | true =>
    cases hb : HasSuffix b "/" with
    | false =>
      left
      have h2 := eq_TrimSuffix_append a ha
      rw [h, TrimSuffix_of_not b hb] at h2
      exact ⟨rfl, h2⟩
    | true =>
      have h2 := eq_TrimSuffix_append a ha
      have h3 := eq_TrimSuffix_append b hb
      rw [h, ← h3] at h2
      exact absurd h2 hne

end strings

namespace template

theorem htmlReplacer_plain : ∀ l : List Char,
    (∀ r ∈ l, htmlReplacementTable r.toNat = "") → htmlReplacer l = l
  | [], _ => rfl
  | r :: rs, h => by
    have hr := h r (List.mem_cons_self r rs)
    have ht := htmlReplacer_plain rs (fun c hc => h c (List.mem_cons_of_mem r hc))
    simp [htmlReplacer, hr, ht]

theorem processURL_kept : ∀ l : List Char, urlKept l = true → processURL l = l
  | [], _ => rfl
  | c :: rest, h => by
    simp only [urlKept, Bool.and_eq_true] at h
    simp [processURL, h.1, processURL_kept rest h.2]

/-- The escapers of a link of the index page leave a string unchanged when it holds no rune
they rewrite. -/
theorem escapers_plain (s : String) (hs : plain s) (hu : urlKept s.data = true) :
    attrEscaper (urlNormalizer s) = s ∧ htmlEscaper s = s := by
  have hn : urlNormalizer s = s := String.ext (processURL_kept s.data hu)
  rw [hn]
  exact ⟨String.ext (htmlReplacer_plain s.data hs), String.ext (htmlReplacer_plain s.data hs)⟩

end template

namespace os

theorem written_append : ∀ a b : List Call, written (a ++ b) = written a ++ written b
  | [], _ => rfl
  | Call.WriteFile _ _ _ :: cs, b => by simp [written, written_append cs b]
  | Call.MkdirAll _ _ :: cs, b => by simp [written, written_append cs b]

/-- A file written once and not written again keeps its content. -/
theorem fileAt_kept (before after : List Call) (name data : String) (perm : Nat)
    (h : ∀ w ∈ written after, w.1 ≠ name) :
    fileAt (before ++ Call.WriteFile name data perm :: after) name = some data := by
  unfold fileAt
  have hnone : (written after).reverse.find? (fun w => w.1 = name) = none := by
    rw [List.find?_eq_none]
    intro w hw
    simpa using h w (List.mem_reverse.mp hw)
  rw [written_append]
  simp [written, List.find?_append, hnone]

end os

namespace vanity

theorem entry_path (path : String) (e : configPath) :
    (entry path e).path = strings.TrimSuffix path "/" := rfl

theorem entry_repo (path : String) (e : configPath) : (entry path e).repo = e.Repo := rfl

theorem entry_subdir (path : String) (e : configPath) : (entry path e).subdir = e.Subdir := rfl

theorem entry_vcs (path : String) (e : configPath) :
    (entry path e).vcs = if e.VCS = "" then "git" else e.VCS :=
  cmp.Or_pair e.VCS "git" (by decide)

theorem Sprintf_display (r : String) :
    fmt.Sprintf "%v %v/tree/main\x7b/dir\x7d %v/blob/main\x7b/dir\x7d/\x7bfile\x7d#L\x7bline\x7d"
        [r, r, r] =
      r ++ " " ++ r ++ "/tree/main\x7b/dir\x7d " ++ r ++
        "/blob/main\x7b/dir\x7d/\x7bfile\x7d#L\x7bline\x7d" := by
  apply String.ext
  simp [fmt.Sprintf, fmt.sprintf, String.data_append]

theorem entry_display (path : String) (e : configPath) :
    (entry path e).display =
      if e.Display = "" then
        e.Repo ++ " " ++ e.Repo ++ "/tree/main\x7b/dir\x7d " ++ e.Repo ++
          "/blob/main\x7b/dir\x7d/\x7bfile\x7d#L\x7bline\x7d"
      else e.Display := by
  have hne : fmt.Sprintf
      "%v %v/tree/main\x7b/dir\x7d %v/blob/main\x7b/dir\x7d/\x7bfile\x7d#L\x7bline\x7d"
      [e.Repo, e.Repo, e.Repo] ≠ "" := by
    rw [Sprintf_display]
    intro h
    have h2 := congrArg String.length h
    simp only [String.length_append] at h2
    have h3 : " ".length = 1 := by decide
    have h4 : "".length = 0 := by decide
    omega
  show cmp.Or [e.Display, _] = _
  rw [cmp.Or_pair _ _ hne, Sprintf_display]

/-- The comparison `generate` sorts with is a total preorder on entries. -/
theorem pathOrders :
    slices.Orders (fun a b : pathConfig => cmp.Compare a.path b.path)
      (fun a b => cmp.Compare a.path b.path ≤ 0) where
  lt_le := fun _ _ h => le_of_lt h
  ge_le := fun a b h => by
    rw [cmp.Compare_neg_iff] at h
    rw [cmp.Compare_nonpos_iff]
    exact not_lt.mp h
  trans := fun a b c h1 h2 => by
    rw [cmp.Compare_nonpos_iff] at *
    exact le_trans h1 h2

theorem normalise_perm (Paths : List (String × configPath)) :
    (normalise Paths).Perm (Paths.map (fun kv => entry kv.1 kv.2)) :=
  slices.SortFunc_perm _ _

theorem normalise_sorted (Paths : List (String × configPath)) :
    (normalise Paths).Pairwise (fun a b => cmp.Compare a.path b.path ≤ 0) :=
  slices.SortFunc_sorted pathOrders _

theorem mem_normalise (Paths : List (String × configPath)) (p : pathConfig) :
    p ∈ normalise Paths ↔ ∃ kv ∈ Paths, entry kv.1 kv.2 = p := by
  rw [(normalise_perm Paths).mem_iff, List.mem_map]

/-- Keys that stay distinct when one trailing slash is removed give distinct paths. -/
theorem normalise_nodup (Paths : List (String × configPath))
    (hkeys : (Paths.map Prod.fst).Nodup)
    (hfree : ∀ k ∈ Paths.map Prod.fst, strings.HasSuffix k "/" = false →
      k ++ "/" ∉ Paths.map Prod.fst) :
    ((normalise Paths).map pathConfig.path).Nodup := by
  refine ((normalise_perm Paths).map pathConfig.path).nodup_iff.mpr ?_
  have hmap : (Paths.map (fun kv => entry kv.1 kv.2)).map pathConfig.path =
      (Paths.map Prod.fst).map (fun k => strings.TrimSuffix k "/") := by
    simp [List.map_map, Function.comp_def, entry_path]
  rw [hmap]
  refine List.Nodup.map_on ?_ hkeys
  intro a ha b hb hab
  by_contra hne
  rcases strings.TrimSuffix_eq a b hab hne with ⟨hs, h⟩ | ⟨hs, h⟩
  · exact hfree b hb hs (h ▸ ha)
  · exact hfree a ha hs (h ▸ hb)

/-- Distinct paths in ascending order are in strictly ascending order. -/
theorem normalise_strict (Paths : List (String × configPath))
    (hnodup : ((normalise Paths).map pathConfig.path).Nodup) :
    (normalise Paths).Pairwise (fun a b => cmp.Compare a.path b.path < 0) := by
  have hne : (normalise Paths).Pairwise (fun a b => a.path ≠ b.path) :=
    List.pairwise_map.mp hnodup
  refine ((normalise_sorted Paths).and hne).imp ?_
  intro a b h
  rw [cmp.Compare_neg_iff]
  rw [cmp.Compare_nonpos_iff] at h
  exact lt_of_le_of_ne h.1 (fun hb => h.2 (utf8.bytes_inj _ _ hb))

/-- With distinct paths the sorted slice does not depend on the order of the `range`. -/
theorem normalise_order_free (P1 P2 : List (String × configPath)) (hperm : P1.Perm P2)
    (hnodup : ((normalise P1).map pathConfig.path).Nodup) :
    normalise P1 = normalise P2 := by
  have hp : (normalise P1).Perm (normalise P2) :=
    ((normalise_perm P1).trans (hperm.map _)).trans (normalise_perm P2).symm
  have hnodup2 : ((normalise P2).map pathConfig.path).Nodup :=
    (hp.map pathConfig.path).nodup_iff.mp hnodup
  haveI : IsAntisymm pathConfig (fun a b => cmp.Compare a.path b.path < 0) :=
    ⟨fun a b h1 h2 => by
      rw [cmp.Compare_neg_iff] at h1 h2
      exact absurd h1 (lt_asymm h2)⟩
  exact List.eq_of_perm_of_sorted hp (normalise_strict P1 hnodup) (normalise_strict P2 hnodup2)

/-- A call either fails and ends the run, or succeeds and the run goes on. -/
theorem call_eq (sys : os.System) (c : os.Call) (done : List os.Call)
    (next : List os.Call → Outcome) :
    (∃ err, sys done c = some err ∧ call sys c done next = ⟨some err, done ++ [c]⟩) ∨
      (sys done c = none ∧ call sys c done next = next (done ++ [c])) := by
  unfold call
  cases sys done c with
  | some err => exact Or.inl ⟨err, rfl, rfl⟩
  | none => exact Or.inr ⟨rfl, rfl⟩

/-- The calls of the second loop extend the calls made before it, and write entry files only. -/
theorem writePages_calls (sys : os.System) (host targetDir : String) :
    ∀ (paths : List pathConfig) (done : List os.Call),
      ∃ extra, (writePages sys host targetDir paths done).calls = done ++ extra ∧
        ∀ w ∈ os.written extra, ∃ p ∈ paths, w.1 = vanityFile targetDir p
  | [], done => ⟨[], by simp [writePages, os.written]⟩
  | p :: rest, done => by
    have hwrite : ∀ d : List os.Call, ∃ extra,
        (call sys (os.Call.WriteFile (vanityFile targetDir p) (vanityPage host p) 0o600) d
          (writePages sys host targetDir rest)).calls = d ++ extra ∧
        ∀ w ∈ os.written extra, ∃ q ∈ p :: rest, w.1 = vanityFile targetDir q := by
      intro d
      rcases call_eq sys (os.Call.WriteFile (vanityFile targetDir p) (vanityPage host p) 0o600) d
        (writePages sys host targetDir rest) with ⟨err, _, heq⟩ | ⟨_, heq⟩
      · rw [heq]
        refine ⟨[os.Call.WriteFile (vanityFile targetDir p) (vanityPage host p) 0o600], rfl, ?_⟩
        intro w hw
        simp only [os.written, List.mem_singleton] at hw
        exact ⟨p, List.mem_cons_self _ _, by rw [hw]⟩
      · rw [heq]
        obtain ⟨extra, he, hw⟩ := writePages_calls sys host targetDir rest
          (d ++ [os.Call.WriteFile (vanityFile targetDir p) (vanityPage host p) 0o600])
        refine ⟨os.Call.WriteFile (vanityFile targetDir p) (vanityPage host p) 0o600 :: extra,
          by simp [he], ?_⟩
        intro w hw2
        simp only [os.written, List.mem_cons] at hw2
        rcases hw2 with h | h
        · exact ⟨p, List.mem_cons_self _ _, by rw [h]⟩
        · obtain ⟨q, hq, hq2⟩ := hw w h
          exact ⟨q, List.mem_cons_of_mem _ hq, hq2⟩
    unfold writePages
    simp only []
    split_ifs with hdir
    · rcases call_eq sys (os.Call.MkdirAll
          (filepath.Join [targetDir, strings.TrimPrefix (filepath.Dir p.path) "/"]) 0o700) done
        (fun done1 =>
          call sys (os.Call.WriteFile (vanityFile targetDir p) (vanityPage host p) 0o600) done1
            (writePages sys host targetDir rest)) with ⟨err, _, heq⟩ | ⟨_, heq⟩
      · rw [heq]
        exact ⟨[os.Call.MkdirAll
          (filepath.Join [targetDir, strings.TrimPrefix (filepath.Dir p.path) "/"]) 0o700], rfl,
          by simp [os.written]⟩
      · rw [heq]
        obtain ⟨extra, he, hw⟩ := hwrite (done ++ [os.Call.MkdirAll
          (filepath.Join [targetDir, strings.TrimPrefix (filepath.Dir p.path) "/"]) 0o700])
        exact ⟨os.Call.MkdirAll
          (filepath.Join [targetDir, strings.TrimPrefix (filepath.Dir p.path) "/"]) 0o700 :: extra,
          by simp [he], by simpa [os.written] using hw⟩
    · exact hwrite done

/-- A run of `generateFiles` that returns no error made the first two calls and then those of
the second loop. -/
theorem generateFiles_calls (sys : os.System) (host targetDir : String) (paths : List pathConfig)
    (hok : (generateFiles sys host paths targetDir).err = none) :
    ∃ extra, (generateFiles sys host paths targetDir).calls =
        os.Call.MkdirAll targetDir 0o700 ::
          os.Call.WriteFile (filepath.Join [targetDir, "index.html"])
            (indexTmpl host (handlers host paths)) 0o600 :: extra ∧
      ∀ w ∈ os.written extra, ∃ p ∈ paths, w.1 = vanityFile targetDir p := by
  unfold generateFiles at *
  rcases call_eq sys (os.Call.MkdirAll targetDir 0o700) []
    (fun done => call sys (os.Call.WriteFile (filepath.Join [targetDir, "index.html"])
      (indexTmpl host (handlers host paths)) 0o600) done
      (writePages sys host targetDir paths)) with ⟨err, _, heq⟩ | ⟨_, heq⟩
  · rw [heq] at hok
    cases hok
  · rw [heq] at hok ⊢
    rcases call_eq sys (os.Call.WriteFile (filepath.Join [targetDir, "index.html"])
      (indexTmpl host (handlers host paths)) 0o600) ([] ++ [os.Call.MkdirAll targetDir 0o700])
      (writePages sys host targetDir paths) with ⟨err, _, heq2⟩ | ⟨_, heq2⟩
    · rw [heq2] at hok
      cases hok
    · simp only [heq2]
      obtain ⟨extra, he, hw⟩ := writePages_calls sys host targetDir paths
        ([] ++ [os.Call.MkdirAll targetDir 0o700] ++
          [os.Call.WriteFile (filepath.Join [targetDir, "index.html"])
            (indexTmpl host (handlers host paths)) 0o600])
      exact ⟨extra, by simpa using he, hw⟩

/-- Once the output root is made, the second call writes the index page. -/
theorem generateFiles_index (sys : os.System) (host targetDir : String) (paths : List pathConfig)
    (hdir : sys [] (os.Call.MkdirAll targetDir 0o700) = none) :
    ∃ rest, (generateFiles sys host paths targetDir).calls =
        os.Call.MkdirAll targetDir 0o700 ::
          os.Call.WriteFile (filepath.Join [targetDir, "index.html"])
            (indexTmpl host (handlers host paths)) 0o600 :: rest := by
  unfold generateFiles
  rcases call_eq sys (os.Call.MkdirAll targetDir 0o700) []
    (fun done => call sys (os.Call.WriteFile (filepath.Join [targetDir, "index.html"])
      (indexTmpl host (handlers host paths)) 0o600) done
      (writePages sys host targetDir paths)) with ⟨err, herr, _⟩ | ⟨_, heq⟩
  · rw [hdir] at herr
    cases herr
  · rw [heq]
    rcases call_eq sys (os.Call.WriteFile (filepath.Join [targetDir, "index.html"])
      (indexTmpl host (handlers host paths)) 0o600) ([] ++ [os.Call.MkdirAll targetDir 0o700])
      (writePages sys host targetDir paths) with ⟨err, _, heq2⟩ | ⟨_, heq2⟩
    · simp only [heq2]
      exact ⟨[], rfl⟩
    · simp only [heq2]
      obtain ⟨extra, he, _⟩ := writePages_calls sys host targetDir paths
        ([] ++ [os.Call.MkdirAll targetDir 0o700] ++
          [os.Call.WriteFile (filepath.Join [targetDir, "index.html"])
            (indexTmpl host (handlers host paths)) 0o600])
      exact ⟨extra, by simpa using he⟩

end vanity

/-! ## The claims -/

namespace vanity

/-- C1, as amended: for a host and an entry whose strings hold no rune the attribute escaper
rewrites, the vanity page contains, with `I = host ++ path`, the tag `go-import` with content
`I vcs repo` when `subdir` is empty and `I vcs repo subdir` when it is not, and the tag
`go-source` with content `I display`; it contains the zero-delay refresh to
`https://pkg.go.dev/I/` when `I` passes the URL filter, and the refresh to
`https://pkg.go.dev/#ZgotmplZ/` when it does not. -/
theorem vanity_page_tags (host : String) (p : pathConfig)
    (hhost : template.plain host) (hpath : template.plain p.path)
    (hrepo : template.plain p.repo) (hvcs : template.plain p.vcs)
    (hdisplay : template.plain p.display) (hsubdir : template.plain p.subdir) :
    (p.subdir = "" → strings.Contains (vanityPage host p)
      ("<meta name=\"go-import\" content=\"" ++ (host ++ p.path) ++ " " ++ p.vcs ++ " " ++
        p.repo ++ "\">")) ∧
    (p.subdir ≠ "" → strings.Contains (vanityPage host p)
      ("<meta name=\"go-import\" content=\"" ++ (host ++ p.path) ++ " " ++ p.vcs ++ " " ++
        p.repo ++ " " ++ p.subdir ++ "\">")) ∧
    strings.Contains (vanityPage host p)
      ("<meta name=\"go-source\" content=\"" ++ (host ++ p.path) ++ " " ++ p.display ++ "\">") ∧
    (template.isSafeURL (host ++ p.path) = true → strings.Contains (vanityPage host p)
      ("<meta http-equiv=\"refresh\" content=\"0; url=https://pkg.go.dev/" ++
        (host ++ p.path) ++ "/\">")) ∧
    (template.isSafeURL (host ++ p.path) = false → strings.Contains (vanityPage host p)
      "<meta http-equiv=\"refresh\" content=\"0; url=https://pkg.go.dev/#ZgotmplZ/\">") := by
  have esc : ∀ s : String, template.plain s → template.attrEscaper s = s :=
    fun s hs => String.ext (template.htmlReplacer_plain s.data hs)
  have himport : template.attrEscaper (host ++ p.path) = host ++ p.path := by
    apply esc
    intro r hr
    rw [String.data_append, List.mem_append] at hr
    exact hr.elim (hhost r) (hpath r)
  have hempty : template.attrEscaper (template.urlFilter "") = "" := by decide
  have hfail : template.attrEscaper ("#" ++ template.filterFailsafe) = "#ZgotmplZ" := by decide
  unfold vanityPage vanityTmpl
  refine ⟨?_, ?_, ?_, ?_, ?_⟩
  · intro hs
    have htag : goImportTag (host ++ p.path) p.vcs p.repo p.subdir =
        "<meta name=\"go-import\" content=\"" ++ (host ++ p.path) ++ " " ++ p.vcs ++ " " ++
          p.repo ++ "\">" := by
      unfold goImportTag
      rw [himport, esc _ hvcs, esc _ hrepo, hs]
      simp
    rw [htag]
    exact ⟨vanityHead.data, ("\n" ++ goSourceTag (host ++ p.path) p.display ++ "\n" ++
      refreshTag (host ++ p.path) "" ++ vanityBody (host ++ p.path) "").data,
      by simp only [String.data_append, List.append_assoc]⟩
  · intro hs
    have htag : goImportTag (host ++ p.path) p.vcs p.repo p.subdir =
        "<meta name=\"go-import\" content=\"" ++ (host ++ p.path) ++ " " ++ p.vcs ++ " " ++
          p.repo ++ " " ++ p.subdir ++ "\">" := by
      unfold goImportTag
      rw [himport, esc _ hvcs, esc _ hrepo, esc _ hsubdir, if_pos hs]
      simp only [String.append_assoc]
    rw [htag]
    exact ⟨vanityHead.data, ("\n" ++ goSourceTag (host ++ p.path) p.display ++ "\n" ++
      refreshTag (host ++ p.path) "" ++ vanityBody (host ++ p.path) "").data,
      by simp only [String.data_append, List.append_assoc]⟩
  · have htag : goSourceTag (host ++ p.path) p.display =
        "<meta name=\"go-source\" content=\"" ++ (host ++ p.path) ++ " " ++ p.display ++
          "\">" := by
      unfold goSourceTag
      rw [himport, esc _ hdisplay]
    rw [htag]
    exact ⟨(vanityHead ++ goImportTag (host ++ p.path) p.vcs p.repo p.subdir ++ "\n").data,
      ("\n" ++ refreshTag (host ++ p.path) "" ++ vanityBody (host ++ p.path) "").data,
      by simp only [String.data_append, List.append_assoc]⟩
  · intro hsafe
    have htag : refreshTag (host ++ p.path) "" =
        "<meta http-equiv=\"refresh\" content=\"0; url=https://pkg.go.dev/" ++
          (host ++ p.path) ++ "/\">" := by
      unfold refreshTag
      rw [hempty]
      unfold template.urlFilter
      rw [if_pos hsafe, himport]
      apply String.ext
      simp only [String.data_append, List.append_assoc]
      rfl
    rw [htag]
    exact ⟨(vanityHead ++ goImportTag (host ++ p.path) p.vcs p.repo p.subdir ++ "\n" ++
      goSourceTag (host ++ p.path) p.display ++ "\n").data,
      (vanityBody (host ++ p.path) "").data,
      by simp only [String.data_append, List.append_assoc]⟩
  · intro hsafe
    have htag : refreshTag (host ++ p.path) "" =
        "<meta http-equiv=\"refresh\" content=\"0; url=https://pkg.go.dev/#ZgotmplZ/\">" := by
      unfold refreshTag
      rw [hempty]
      unfold template.urlFilter
      rw [hsafe]
      simp only [Bool.false_eq_true, if_false]
      rw [hfail]
      decide
    rw [htag]
    exact ⟨(vanityHead ++ goImportTag (host ++ p.path) p.vcs p.repo p.subdir ++ "\n" ++
      goSourceTag (host ++ p.path) p.display ++ "\n").data,
      (vanityBody (host ++ p.path) "").data,
      by simp only [String.data_append, List.append_assoc]⟩

/-- C1 as stated fails: the host `go.example.com:8080` holds no rune the attribute escaper
rewrites, and the refresh of the page goes to `#ZgotmplZ`, not to the import path. -/
theorem refresh_filtered :
    template.plain "go.example.com:8080" ∧
    template.plain (entry "/lib" ⟨"https://github.com/example/lib", "", "", ""⟩).path ∧
    template.plain (entry "/lib" ⟨"https://github.com/example/lib", "", "", ""⟩).repo ∧
    template.plain (entry "/lib" ⟨"https://github.com/example/lib", "", "", ""⟩).vcs ∧
    template.plain (entry "/lib" ⟨"https://github.com/example/lib", "", "", ""⟩).display ∧
    template.plain (entry "/lib" ⟨"https://github.com/example/lib", "", "", ""⟩).subdir ∧
    ¬ strings.Contains
      (vanityPage "go.example.com:8080"
        (entry "/lib" ⟨"https://github.com/example/lib", "", "", ""⟩))
      "<meta http-equiv=\"refresh\" content=\"0; url=https://pkg.go.dev/go.example.com:8080/lib/\">" ∧
    strings.Contains
      (vanityPage "go.example.com:8080"
        (entry "/lib" ⟨"https://github.com/example/lib", "", "", ""⟩))
      "<meta http-equiv=\"refresh\" content=\"0; url=https://pkg.go.dev/#ZgotmplZ/\">" := by
  decide

end vanity

namespace vanity

/-- C2, as amended: the entries `generate` hands to `generateFiles` are the entries of the
keys of the mapping, one each, in ascending order of path under byte-wise lexicographic
comparison; once the output root is made the index page written to `index.html` lists one link
per entry, in that same order, for `host ++ path` as the template escapes it; and when the host
and the paths hold no rune the HTML escaper rewrites and `host ++ path` none the URL normaliser
rewrites, the links are `host ++ path` itself. -/
theorem index_sorted_links (Unmarshal : List Nat → Except String config) (sys : os.System)
    (input : List Nat) (outputDir : String) (cfg : config)
    (hdecode : Unmarshal input = Except.ok cfg)
    (hroot : sys [] (os.Call.MkdirAll outputDir 0o700) = none) :
    (normalise cfg.Paths).Perm (cfg.Paths.map (fun kv => entry kv.1 kv.2)) ∧
    (normalise cfg.Paths).Pairwise
      (fun a b => cmp.Compare a.path b.path ≤ 0 ∧ utf8.bytes a.path ≤ utf8.bytes b.path) ∧
    (∃ rest, (generate Unmarshal sys input outputDir).calls =
      os.Call.MkdirAll outputDir 0o700 ::
        os.Call.WriteFile (filepath.Join [outputDir, "index.html"])
          (indexHead ++ template.htmlEscaper cfg.Host ++ indexNeck ++
            String.join ((normalise cfg.Paths).map (fun p =>
              "<li><a href=\"https://pkg.go.dev/" ++
                template.attrEscaper (template.urlNormalizer (cfg.Host ++ p.path)) ++ "\">" ++
                template.htmlEscaper (cfg.Host ++ p.path) ++ "</a></li>")) ++
            indexTail) 0o600 :: rest) ∧
    (template.plain cfg.Host →
      (∀ p ∈ normalise cfg.Paths,
        template.plain p.path ∧ template.urlKept (cfg.Host ++ p.path).data = true) →
      ∃ rest, (generate Unmarshal sys input outputDir).calls =
        os.Call.MkdirAll outputDir 0o700 ::
          os.Call.WriteFile (filepath.Join [outputDir, "index.html"])
            (indexHead ++ cfg.Host ++ indexNeck ++
              String.join ((normalise cfg.Paths).map (fun p =>
                "<li><a href=\"https://pkg.go.dev/" ++ (cfg.Host ++ p.path) ++ "\">" ++
                  (cfg.Host ++ p.path) ++ "</a></li>")) ++
              indexTail) 0o600 :: rest) := by
  obtain ⟨rest, hrest⟩ := generateFiles_index sys cfg.Host outputDir (normalise cfg.Paths) hroot
  have hgen : generate Unmarshal sys input outputDir =
      generateFiles sys cfg.Host (normalise cfg.Paths) outputDir := by
    unfold generate
    rw [hdecode]
  have hpage : indexTmpl cfg.Host (handlers cfg.Host (normalise cfg.Paths)) =
      indexHead ++ template.htmlEscaper cfg.Host ++ indexNeck ++
        String.join ((normalise cfg.Paths).map (fun p =>
          "<li><a href=\"https://pkg.go.dev/" ++
            template.attrEscaper (template.urlNormalizer (cfg.Host ++ p.path)) ++ "\">" ++
            template.htmlEscaper (cfg.Host ++ p.path) ++ "</a></li>")) ++
        indexTail := by
    simp [indexTmpl, handlers, indexItem, List.map_map, Function.comp_def]
  refine ⟨normalise_perm cfg.Paths, ?_, ?_, ?_⟩
  · refine (normalise_sorted cfg.Paths).imp ?_
    intro a b h
    exact ⟨h, (cmp.Compare_nonpos_iff _ _).mp h⟩
  · exact ⟨rest, by rw [hgen, hrest, hpage]⟩
  · intro hhost hpaths
    refine ⟨rest, ?_⟩
    rw [hgen, hrest, hpage]
    have hh : template.htmlEscaper cfg.Host = cfg.Host :=
      String.ext (template.htmlReplacer_plain cfg.Host.data hhost)
    have hitems : (normalise cfg.Paths).map (fun p =>
          "<li><a href=\"https://pkg.go.dev/" ++
            template.attrEscaper (template.urlNormalizer (cfg.Host ++ p.path)) ++ "\">" ++
            template.htmlEscaper (cfg.Host ++ p.path) ++ "</a></li>") =
        (normalise cfg.Paths).map (fun p =>
          "<li><a href=\"https://pkg.go.dev/" ++ (cfg.Host ++ p.path) ++ "\">" ++
            (cfg.Host ++ p.path) ++ "</a></li>") := by
      apply List.map_congr_left
      intro p hp
      have hplain : template.plain (cfg.Host ++ p.path) := by
        intro r hr
        rw [String.data_append, List.mem_append] at hr
        exact hr.elim (hhost r) ((hpaths p hp).1 r)
      obtain ⟨hurl, htext⟩ := template.escapers_plain _ hplain (hpaths p hp).2
      simp only [hurl, htext]
    rw [hh, hitems]

/-- C2 as stated fails: for the key `/c++` the one link the index page lists is written with
`+` escaped, in the `href` and in the text, and does not hold `host ++ path`. -/
theorem index_link_escaped :
    os.fileAt
        (generate
          (fun _ => Except.ok ⟨"go.example.com",
            [("/c++", ⟨"https://github.com/example/cpp", "", "", ""⟩)]⟩)
          os.allowAll [] "out").calls "out/index.html" =
      some (indexHead ++ "go.example.com" ++ indexNeck ++
        "<li><a href=\"https://pkg.go.dev/go.example.com/c&#43;&#43;\">go.example.com/c&#43;&#43;</a></li>" ++
        indexTail) ∧
    ¬ strings.Contains
      "<li><a href=\"https://pkg.go.dev/go.example.com/c&#43;&#43;\">go.example.com/c&#43;&#43;</a></li>"
      "go.example.com/c++" :=
  ⟨rfl, by decide⟩

/-- C3: the normalised VCS kind of a configured entry is `git` when the configured one is empty
and the configured one otherwise; the `go-import` tag of the vanity page of an entry with no
configured VCS kind has `git` in second place. -/
theorem vcs_default (host : String) (Paths : List (String × configPath))
    (key : String) (e : configPath) (hmem : (key, e) ∈ Paths) :
    entry key e ∈ normalise Paths ∧
    (entry key e).vcs = (if e.VCS = "" then "git" else e.VCS) ∧
    (e.VCS = "" → strings.Contains (vanityPage host (entry key e))
      ("<meta name=\"go-import\" content=\"" ++
        template.attrEscaper (host ++ (entry key e).path) ++ " git " ++
        template.attrEscaper e.Repo)) := by
  refine ⟨(mem_normalise Paths _).mpr ⟨(key, e), hmem, rfl⟩, entry_vcs key e, ?_⟩
  intro hv
  have hgit : template.attrEscaper "git" = "git" := by decide
  unfold vanityPage vanityTmpl goImportTag
  rw [entry_vcs, if_pos hv, hgit, entry_repo]
  exact ⟨vanityHead.data,
    ((if (entry key e).subdir ≠ "" then " " ++ template.attrEscaper (entry key e).subdir
        else "") ++ "\">" ++ "\n" ++
      goSourceTag (host ++ (entry key e).path) (entry key e).display ++ "\n" ++
      refreshTag (host ++ (entry key e).path) "" ++
      vanityBody (host ++ (entry key e).path) "").data,
    by
      simp only [String.data_append, List.append_assoc]
      rfl⟩

/-- C4: the normalised display template of a configured entry with repository URL `r` is the
configured one when that is not empty, and otherwise
`r ++ " " ++ r ++ "/tree/main{/dir} " ++ r ++ "/blob/main{/dir}/{file}#L{line}"`, the
placeholders left as they are. -/
theorem display_default (Paths : List (String × configPath))
    (key : String) (e : configPath) (hmem : (key, e) ∈ Paths) :
    entry key e ∈ normalise Paths ∧
    (e.Display ≠ "" → (entry key e).display = e.Display) ∧
    (e.Display = "" → (entry key e).display =
      e.Repo ++ " " ++ e.Repo ++ "/tree/main\x7b/dir\x7d " ++ e.Repo ++
        "/blob/main\x7b/dir\x7d/\x7bfile\x7d#L\x7bline\x7d") := by
  refine ⟨(mem_normalise Paths _).mpr ⟨(key, e), hmem, rfl⟩, ?_, ?_⟩
  · intro h
    rw [entry_display, if_neg h]
  · intro h
    rw [entry_display, if_pos h]

/-- C5: for a key `p` that does not end in `/`, `generate` on the mapping with the single key
`p ++ "/"` makes the same calls with the same file names and contents, and returns the same,
as on the mapping with the single key `p`. -/
theorem trailing_slash_same_output (Unmarshal : List Nat → Except String config)
    (sys : os.System) (input1 input2 : List Nat) (outputDir host p : String) (e : configPath)
    (hp : strings.HasSuffix p "/" = false)
    (h1 : Unmarshal input1 = Except.ok ⟨host, [(p ++ "/", e)]⟩)
    (h2 : Unmarshal input2 = Except.ok ⟨host, [(p, e)]⟩) :
    generate Unmarshal sys input1 outputDir = generate Unmarshal sys input2 outputDir := by
  have hentry : entry (p ++ "/") e = entry p e := by
    unfold entry
    rw [strings.TrimSuffix_append, strings.TrimSuffix_of_not p hp]
  unfold generate
  rw [h1, h2]
  simp only [normalise, List.map_cons, List.map_nil, hentry]

/-- C6, as amended: the path of every normalised entry is a configured key with one trailing
slash removed, and when no key ends in `//` no normalised path ends in `/`. -/
theorem path_trimmed_once (Paths : List (String × configPath)) (p : pathConfig)
    (hp : p ∈ normalise Paths) :
    (∃ kv ∈ Paths, p.path = strings.TrimSuffix kv.1 "/") ∧
    ((∀ kv ∈ Paths, strings.HasSuffix kv.1 "//" = false) →
      strings.HasSuffix p.path "/" = false) := by
  obtain ⟨kv, hkv, hentry⟩ := (mem_normalise Paths p).mp hp
  have hpath : p.path = strings.TrimSuffix kv.1 "/" := by rw [← hentry, entry_path]
  refine ⟨⟨kv, hkv, hpath⟩, ?_⟩
  intro hall
  cases h : strings.HasSuffix p.path "/" with
  | false => rfl
  | true =>
    rw [hpath] at h
    have h2 := strings.HasSuffix_TrimSuffix kv.1 h
    rw [hall kv hkv] at h2
    cases h2

/-- C7, as amended: when the keys of the mapping are pairwise distinct and no key that does
not end in `/` has that key followed by `/` as another key, the paths of the normalised entries
are pairwise distinct and in strictly ascending order. -/
theorem paths_distinct (Paths : List (String × configPath))
    (hkeys : (Paths.map Prod.fst).Nodup)
    (hfree : ∀ k ∈ Paths.map Prod.fst, strings.HasSuffix k "/" = false →
      k ++ "/" ∉ Paths.map Prod.fst) :
    ((normalise Paths).map pathConfig.path).Nodup ∧
    (normalise Paths).Pairwise (fun a b => cmp.Compare a.path b.path < 0) :=
  ⟨normalise_nodup Paths hkeys hfree,
    normalise_strict Paths (normalise_nodup Paths hkeys hfree)⟩

/-- C8, as amended: when the keys of the mapping are pairwise distinct and no key that does
not end in `/` has that key followed by `/` as another key, two runs on the same input and the
same system in which the `range` visits the entries in different orders make the same calls
with the same data and return the same. -/
theorem order_independent (Unmarshal1 Unmarshal2 : List Nat → Except String config)
    (sys : os.System) (input : List Nat) (outputDir host : String)
    (P1 P2 : List (String × configPath))
    (h1 : Unmarshal1 input = Except.ok ⟨host, P1⟩)
    (h2 : Unmarshal2 input = Except.ok ⟨host, P2⟩)
    (hperm : P1.Perm P2)
    (hkeys : (P1.map Prod.fst).Nodup)
    (hfree : ∀ k ∈ P1.map Prod.fst, strings.HasSuffix k "/" = false →
      k ++ "/" ∉ P1.map Prod.fst) :
    generate Unmarshal1 sys input outputDir = generate Unmarshal2 sys input outputDir := by
  unfold generate
  rw [h1, h2]
  simp only []
  rw [normalise_order_free P1 P2 hperm (normalise_nodup P1 hkeys hfree)]

/-- C9, as amended: when `generate` returns no error and no entry's file is `index.html` of the
output root, that file holds the index page rendered for the host and the mapping at the end
of the run; with an empty mapping it is the only file written. -/
theorem index_file_kept (Unmarshal : List Nat → Except String config) (sys : os.System)
    (input : List Nat) (outputDir : String) (cfg : config)
    (hdecode : Unmarshal input = Except.ok cfg)
    (hok : (generate Unmarshal sys input outputDir).err = none)
    (hfree : ∀ p ∈ normalise cfg.Paths,
      vanityFile outputDir p ≠ filepath.Join [outputDir, "index.html"]) :
    os.fileAt (generate Unmarshal sys input outputDir).calls
        (filepath.Join [outputDir, "index.html"]) =
      some (indexTmpl cfg.Host (handlers cfg.Host (normalise cfg.Paths))) ∧
    (cfg.Paths = [] → os.written (generate Unmarshal sys input outputDir).calls =
      [(filepath.Join [outputDir, "index.html"], indexTmpl cfg.Host [])]) := by
  have hgen : generate Unmarshal sys input outputDir =
      generateFiles sys cfg.Host (normalise cfg.Paths) outputDir := by
    unfold generate
    rw [hdecode]
  rw [hgen] at hok ⊢
  obtain ⟨extra, hcalls, hnames⟩ := generateFiles_calls sys cfg.Host outputDir _ hok
  rw [hcalls]
  constructor
  · refine os.fileAt_kept [os.Call.MkdirAll outputDir 0o700] extra _ _ _ ?_
    intro w hw
    obtain ⟨p, hp, hname⟩ := hnames w hw
    rw [hname]
    exact hfree p hp
  · intro hempty
    have hnil : normalise cfg.Paths = [] := by rw [hempty]; rfl
    have hnone : os.written extra = [] := by
      apply List.eq_nil_iff_forall_not_mem.mpr
      intro w hw
      obtain ⟨p, hp, _⟩ := hnames w hw
      rw [hnil] at hp
      cases hp
    simp [os.written, hnone, hnil, handlers]

/-- C10: when decoding the input fails, `generate` returns the decoder's error and makes no
filesystem call. -/
theorem decode_failure (Unmarshal : List Nat → Except String config) (sys : os.System)
    (input : List Nat) (outputDir err : String)
    (hdecode : Unmarshal input = Except.error err) :
    generate Unmarshal sys input outputDir = ⟨some err, []⟩ := by
  unfold generate
  rw [hdecode]

end vanity

namespace vanity

/-- The entry of `TestGenerateVanityMetaTags`, an entry with a subdirectory and an entry on a
host with a port: the page of the first holds the three tags the test looks for, the page of
the second the `go-import` tag with the subdirectory, the page of the third the filtered
refresh. -/
theorem vanity_page_tags_witness :
    (strings.Contains
      (vanityPage "go.example.com"
        (entry "/mylib" ⟨"https://github.com/example/mylib", "", "git", ""⟩))
      "<meta name=\"go-import\" content=\"go.example.com/mylib git https://github.com/example/mylib\">" ∧
    strings.Contains
      (vanityPage "go.example.com"
        (entry "/mylib" ⟨"https://github.com/example/mylib", "", "git", ""⟩))
      "<meta name=\"go-source\" content=\"go.example.com/mylib https://github.com/example/mylib https://github.com/example/mylib/tree/main\x7b/dir\x7d https://github.com/example/mylib/blob/main\x7b/dir\x7d/\x7bfile\x7d#L\x7bline\x7d\">" ∧
    strings.Contains
      (vanityPage "go.example.com"
        (entry "/mylib" ⟨"https://github.com/example/mylib", "", "git", ""⟩))
      "<meta http-equiv=\"refresh\" content=\"0; url=https://pkg.go.dev/go.example.com/mylib/\">") ∧
    strings.Contains
      (vanityPage "go.example.com"
        (entry "/mono/lib" ⟨"https://github.com/example/mono", "", "git", "lib"⟩))
      "<meta name=\"go-import\" content=\"go.example.com/mono/lib git https://github.com/example/mono lib\">" ∧
    strings.Contains
      (vanityPage "localhost:8080"
        (entry "/sdk" ⟨"https://github.com/example/sdk", "", "", ""⟩))
      "<meta http-equiv=\"refresh\" content=\"0; url=https://pkg.go.dev/#ZgotmplZ/\">" :=
  have h := vanity_page_tags "go.example.com"
    (entry "/mylib" ⟨"https://github.com/example/mylib", "", "git", ""⟩)
    (by decide) (by decide) (by decide) (by decide) (by decide) (by decide)
  have h2 := vanity_page_tags "go.example.com"
    (entry "/mono/lib" ⟨"https://github.com/example/mono", "", "git", "lib"⟩)
    (by decide) (by decide) (by decide) (by decide) (by decide) (by decide)
  have h3 := vanity_page_tags "localhost:8080"
    (entry "/sdk" ⟨"https://github.com/example/sdk", "", "", ""⟩)
    (by decide) (by decide) (by decide) (by decide) (by decide) (by decide)
  ⟨⟨h.1 (by decide), h.2.2.1, h.2.2.2.1 (by decide)⟩, h2.2.1 (by decide),
    h3.2.2.2.2 (by decide)⟩

/-- The three entries of `TestGenerateMultiplePaths`, visited out of order: the index page
lists `alpha`, `beta`, `zeta` in that order, each link being `host ++ path`. -/
theorem index_sorted_links_witness :
    ∃ rest,
      (generate
        (fun _ => Except.ok ⟨"go.example.com",
          [("/zeta", ⟨"https://github.com/example/zeta", "", "", ""⟩),
            ("/alpha", ⟨"https://github.com/example/alpha", "", "", ""⟩),
            ("/beta", ⟨"https://github.com/example/beta", "", "", ""⟩)]⟩)
        os.allowAll [] "out").calls =
      os.Call.MkdirAll "out" 0o700 ::
        os.Call.WriteFile "out/index.html"
          (indexHead ++ "go.example.com" ++ indexNeck ++
            ("<li><a href=\"https://pkg.go.dev/go.example.com/alpha\">go.example.com/alpha</a></li>" ++
              "<li><a href=\"https://pkg.go.dev/go.example.com/beta\">go.example.com/beta</a></li>" ++
              "<li><a href=\"https://pkg.go.dev/go.example.com/zeta\">go.example.com/zeta</a></li>") ++
            indexTail) 0o600 :: rest :=
  (index_sorted_links
    (fun _ => Except.ok ⟨"go.example.com",
      [("/zeta", ⟨"https://github.com/example/zeta", "", "", ""⟩),
        ("/alpha", ⟨"https://github.com/example/alpha", "", "", ""⟩),
        ("/beta", ⟨"https://github.com/example/beta", "", "", ""⟩)]⟩)
    os.allowAll [] "out" _ rfl rfl).2.2.2 (by decide) (by decide)

/-- The entry of `TestGenerateDefaultVCS`: its VCS kind is `git` and the tag says so. -/
theorem vcs_default_witness :
    (entry "/lib" ⟨"https://github.com/example/lib", "", "", ""⟩).vcs = "git" ∧
    strings.Contains
      (vanityPage "go.example.com" (entry "/lib" ⟨"https://github.com/example/lib", "", "", ""⟩))
      "<meta name=\"go-import\" content=\"go.example.com/lib git https://github.com/example/lib" :=
  have h := vcs_default "go.example.com"
    [("/lib", ⟨"https://github.com/example/lib", "", "", ""⟩)] "/lib"
    ⟨"https://github.com/example/lib", "", "", ""⟩ (List.mem_singleton.mpr rfl)
  ⟨h.2.1, h.2.2 rfl⟩

/-- The entry of `TestGenerateDefaultDisplay`: the display template the test expects. -/
theorem display_default_witness :
    (entry "/lib" ⟨"https://github.com/example/lib", "", "", ""⟩).display =
      "https://github.com/example/lib https://github.com/example/lib/tree/main\x7b/dir\x7d https://github.com/example/lib/blob/main\x7b/dir\x7d/\x7bfile\x7d#L\x7bline\x7d" :=
  (display_default [("/lib", ⟨"https://github.com/example/lib", "", "", ""⟩)] "/lib"
    ⟨"https://github.com/example/lib", "", "", ""⟩ (List.mem_singleton.mpr rfl)).2.2 rfl

/-- The keys `/lib/` and `/lib` of `TestGenerateTrailingSlashes` give the same run. -/
theorem trailing_slash_same_output_witness :
    generate
        (fun input => Except.ok ⟨"go.example.com",
          [(if input = [1] then "/lib/" else "/lib",
            ⟨"https://github.com/example/lib", "", "", ""⟩)]⟩)
        os.allowAll [1] "out" =
      generate
        (fun input => Except.ok ⟨"go.example.com",
          [(if input = [1] then "/lib/" else "/lib",
            ⟨"https://github.com/example/lib", "", "", ""⟩)]⟩)
        os.allowAll [2] "out" :=
  trailing_slash_same_output _ os.allowAll [1] [2] "out" "go.example.com" "/lib"
    ⟨"https://github.com/example/lib", "", "", ""⟩ (by decide) rfl rfl

end vanity

namespace vanity

/-- C6 as stated fails: the key `/lib//` keeps one trailing slash. -/
theorem path_trailing_slash_left :
    (normalise [("/lib//", ⟨"https://github.com/example/lib", "", "", ""⟩)]).map
        pathConfig.path = ["/lib/"] ∧
      strings.HasSuffix "/lib/" "/" = true := by
  decide

/-- The key `/lib/` of `TestGenerateTrailingSlashes` gives a path without trailing slash. -/
theorem path_trimmed_once_witness :
    strings.HasSuffix
      (entry "/lib/" ⟨"https://github.com/example/lib", "", "", ""⟩).path "/" = false :=
  (path_trimmed_once [("/lib/", ⟨"https://github.com/example/lib", "", "", ""⟩)]
    (entry "/lib/" ⟨"https://github.com/example/lib", "", "", ""⟩) (by decide)).2 (by decide)

/-- C7 as stated fails: the distinct keys `/lib` and `/lib/` give the same path twice. -/
theorem paths_collide :
    (["/lib", "/lib/"] : List String).Nodup ∧
      (normalise [("/lib", ⟨"https://github.com/example/a", "", "", ""⟩),
          ("/lib/", ⟨"https://github.com/example/b", "", "", ""⟩)]).map pathConfig.path =
        ["/lib", "/lib"] ∧
      ¬ (["/lib", "/lib"] : List String).Nodup := by
  decide

/-- The two entries of `TestGenerate` have distinct paths. -/
theorem paths_distinct_witness :
    ((normalise [("/sdk", ⟨"https://github.com/example/sdk", "", "git", ""⟩),
        ("/contrib", ⟨"https://github.com/example/contrib", "", "", ""⟩)]).map
      pathConfig.path).Nodup :=
  (paths_distinct
    [("/sdk", ⟨"https://github.com/example/sdk", "", "git", ""⟩),
      ("/contrib", ⟨"https://github.com/example/contrib", "", "", ""⟩)]
    (by decide) (by decide)).1

/-- C8 as stated fails: with the keys `/lib` and `/lib/` the content of `lib.html` at the end
of the run depends on the order in which the `range` visits the two entries. -/
theorem order_dependent :
    (["/lib", "/lib/"] : List String).Nodup ∧
    ([("/lib", (⟨"https://github.com/example/a", "", "", ""⟩ : configPath)),
        ("/lib/", ⟨"https://github.com/example/b", "", "", ""⟩)]).Perm
      [("/lib/", ⟨"https://github.com/example/b", "", "", ""⟩),
        ("/lib", ⟨"https://github.com/example/a", "", "", ""⟩)] ∧
    os.fileAt
        (generate
          (fun _ => Except.ok ⟨"go.example.com",
            [("/lib", ⟨"https://github.com/example/a", "", "", ""⟩),
              ("/lib/", ⟨"https://github.com/example/b", "", "", ""⟩)]⟩)
          os.allowAll [] "out").calls "out/lib.html" =
      some (vanityPage "go.example.com"
        (entry "/lib" ⟨"https://github.com/example/b", "", "", ""⟩)) ∧
    os.fileAt
        (generate
          (fun _ => Except.ok ⟨"go.example.com",
            [("/lib/", ⟨"https://github.com/example/b", "", "", ""⟩),
              ("/lib", ⟨"https://github.com/example/a", "", "", ""⟩)]⟩)
          os.allowAll [] "out").calls "out/lib.html" =
      some (vanityPage "go.example.com"
        (entry "/lib" ⟨"https://github.com/example/a", "", "", ""⟩)) ∧
    vanityPage "go.example.com" (entry "/lib" ⟨"https://github.com/example/b", "", "", ""⟩) ≠
      vanityPage "go.example.com" (entry "/lib" ⟨"https://github.com/example/a", "", "", ""⟩) :=
  ⟨by decide, List.Perm.swap _ _ _, by decide, by decide, by decide⟩

/-- The two entries of `TestGenerate`, visited in either order, give the same run. -/
theorem order_independent_witness :
    generate
        (fun _ => Except.ok ⟨"go.example.com",
          [("/sdk", ⟨"https://github.com/example/sdk", "", "git", ""⟩),
            ("/contrib", ⟨"https://github.com/example/contrib", "", "", ""⟩)]⟩)
        os.allowAll [] "out" =
      generate
        (fun _ => Except.ok ⟨"go.example.com",
          [("/contrib", ⟨"https://github.com/example/contrib", "", "", ""⟩),
            ("/sdk", ⟨"https://github.com/example/sdk", "", "git", ""⟩)]⟩)
        os.allowAll [] "out" :=
  order_independent _ _ os.allowAll [] "out" "go.example.com" _ _ rfl rfl
    (List.Perm.swap _ _ _) (by decide) (by decide)

/-- C9 as stated fails: with the key `/index` the run returns no error and `index.html` of the
output root ends up holding the vanity page of that entry, not the index page. -/
theorem index_overwritten :
    (generate
        (fun _ => Except.ok ⟨"go.example.com",
          [("/index", ⟨"https://github.com/example/index", "", "", ""⟩)]⟩)
        os.allowAll [] "out").err = none ∧
    os.fileAt
        (generate
          (fun _ => Except.ok ⟨"go.example.com",
            [("/index", ⟨"https://github.com/example/index", "", "", ""⟩)]⟩)
          os.allowAll [] "out").calls (filepath.Join ["out", "index.html"]) =
      some (vanityPage "go.example.com"
        (entry "/index" ⟨"https://github.com/example/index", "", "", ""⟩)) ∧
    vanityPage "go.example.com"
        (entry "/index" ⟨"https://github.com/example/index", "", "", ""⟩) ≠
      indexTmpl "go.example.com" (handlers "go.example.com"
        (normalise [("/index", ⟨"https://github.com/example/index", "", "", ""⟩)])) := by
  decide

/-- With the single key `/sdk` the index page is what `index.html` holds at the end. -/
theorem index_file_kept_witness :
    os.fileAt
        (generate
          (fun _ => Except.ok ⟨"go.example.com",
            [("/sdk", ⟨"https://github.com/example/sdk", "", "git", ""⟩)]⟩)
          os.allowAll [] "out").calls (filepath.Join ["out", "index.html"]) =
      some (indexTmpl "go.example.com" (handlers "go.example.com"
        (normalise [("/sdk", ⟨"https://github.com/example/sdk", "", "git", ""⟩)]))) :=
  (index_file_kept
    (fun _ => Except.ok ⟨"go.example.com",
      [("/sdk", ⟨"https://github.com/example/sdk", "", "git", ""⟩)]⟩)
    os.allowAll [] "out" _ rfl (by decide) (by decide)).1

/-- The input of `TestGenerateInvalidConfig` with a decoder that rejects it. -/
theorem decode_failure_witness :
    generate (fun _ => Except.error "yaml: line 2: did not find expected node content")
        os.allowAll [105, 110, 118, 97, 108, 105, 100, 58, 32, 91] "out" =
      ⟨some "yaml: line 2: did not find expected node content", []⟩ :=
  decode_failure _ os.allowAll _ "out" _ rfl

end vanity
